import Mathlib

/-!
# Verification of the BBF container tool (`src/src/bbfenc.cpp`)

A shallow embedding of the BBF ("Bound Book Format") reader/CLI driver from
`src/src/bbfenc.cpp`, together with theorems settling the specification claims.

Conventions of the embedding:
* C++ `std::string` values and raw byte buffers are both modelled as `List Nat`
  (one `Nat` per byte; all byte values produced by the programs are < 256).
* Machine integers (`uint32_t`, `uint64_t`, `uint8_t`, `size_t`) are modelled
  as `Nat`; where wrap-around matters (the section counter, `page - 1`) the
  reduction `% 2^32` is written explicitly.
* `stream.seekg(off); stream.read(buf, len)` on the already-opened file is
  modelled as `(file.drop off).take len` over the file's byte list.
* The XXH3 hash (`xxhash.h`, a third-party library) is kept abstract: the
  verify logic is parametrised by an arbitrary hash function
  `List Nat → Nat`, exactly as the driver only ever compares its result
  for equality.
-/

/-- Default/placeholder byte used nowhere observable; `List.getD` needs one. -/
def ZB : Nat := 0

/-- The byte list of the string `"OFFSET_ERR"`, the in-band sentinel that
`BBFReader::getString` returns for an out-of-range offset
(src/src/bbfenc.cpp:70). -/
def OFFSET_ERR : List Nat := [79, 70, 70, 83, 69, 84, 95, 69, 82, 82]

/-- The byte list of the magic string `"BBF1"` checked against both the header
and the footer (src/src/bbfenc.cpp:50,57). -/
def BBF_MAGIC : List Nat := [66, 66, 70, 49]

/-- `reader.stream.seekg(off); reader.stream.read(buf, len)`: the `len` bytes
of the file starting at absolute offset `off` (truncated at end of file, as a
short `read` fills fewer bytes). -/
def readBytes (file : List Nat) (off len : Nat) : List Nat :=
  (file.drop off).take len

/-- `BBFReader::getString` (src/src/bbfenc.cpp:67-72): if the offset is not
below the loaded pool size, return the sentinel string `"OFFSET_ERR"`;
otherwise build a C string from the pool bytes starting at `offset`, i.e. read
up to (not including) the first null byte. -/
def getString (stringPool : List Nat) (offset : Nat) : List Nat :=
  if stringPool.length ≤ offset then OFFSET_ERR
  else (stringPool.drop offset).takeWhile (fun b => b != 0)

/-- A *valid interned-string start* in a string pool, per spec §3: the pool is
a sequence of null-terminated strings back to back, and valid offsets
"reference the start of a string", i.e. offset 0 or the position right after a
null terminator, and inside the pool. -/
def validStringStart (stringPool : List Nat) (offset : Nat) : Prop :=
  offset < stringPool.length ∧ (offset = 0 ∨ stringPool.getD (offset - 1) 1 = 0)

instance (stringPool : List Nat) (offset : Nat) :
    Decidable (validStringStart stringPool offset) := by
  unfold validStringStart; infer_instance

/-- `trimQuotes` (src/src/bbfenc.cpp:152-159): strip one leading and one
trailing double-quote byte (34) when the string has length ≥ 2 and both ends
are quotes. `s.substr(1, s.size() - 2)` is `dropLast ∘ drop 1`. -/
def trimQuotes (s : List Nat) : List Nat :=
  if 2 ≤ s.length ∧ s.getD 0 ZB = 34 ∧ s.getD (s.length - 1) ZB = 34 then
    (s.drop 1).dropLast
  else s

/-! ## Header / footer validation (`BBFReader::open`, src/src/bbfenc.cpp:37-65) -/

/-- The BBF file header as used by the reader: 4 magic bytes and a version
byte. (The struct itself is declared in `libbbf.h`; its logical fields are
those given in spec §3 and read at src/src/bbfenc.cpp:47-50,279.) -/
structure BBFHeader where
  magic : List Nat
  version : Nat
deriving DecidableEq

/-- The BBF footer as used by the reader: 4 magic bytes plus the offset and
count of every table. (Declared in `libbbf.h`; fields are exactly those the
driver dereferences: `stringPoolOffset`, `assetTableOffset`, `assetCount`,
`pageTableOffset`, `pageCount`, `sectionTableOffset`, `sectionCount`,
`metaTableOffset`, `keyCount`.) -/
structure BBFFooter where
  magic : List Nat
  stringPoolOffset : Nat
  assetTableOffset : Nat
  assetCount : Nat
  pageTableOffset : Nat
  pageCount : Nat
  sectionTableOffset : Nat
  sectionCount : Nat
  metaTableOffset : Nat
  keyCount : Nat
deriving DecidableEq

/-- The validation performed by `BBFReader::open` (src/src/bbfenc.cpp:37-65)
once the header and footer records have been read from the file: the header's
4 magic bytes are compared against `"BBF1"` (line 50) and the footer's against
`"BBF1"` (line 57). No other field of either record is inspected; in
particular `header.version` is only stored, never checked. -/
def bbfOpenChecks (header : BBFHeader) (footer : BBFFooter) : Bool :=
  (header.magic == BBF_MAGIC) && (footer.magic == BBF_MAGIC)

/-- The string pool loaded eagerly by `open` (src/src/bbfenc.cpp:60-63):
`assetTableOffset - stringPoolOffset` bytes starting at `stringPoolOffset`. -/
def loadStringPool (file : List Nat) (footer : BBFFooter) : List Nat :=
  readBytes file footer.stringPoolOffset
    (footer.assetTableOffset - footer.stringPoolOffset)

/-! ## Tables: assets, pages, sections -/

/-- One asset-table record as dereferenced by the driver: absolute byte
`offset`, byte `length`, stored `xxh3Hash`, and the image `type` tag. -/
structure BBFAssetEntry where
  offset : Nat
  length : Nat
  xxh3Hash : Nat
  type : Nat
deriving DecidableEq

/-- One page-table record: the index of the asset holding the page's bytes. -/
structure BBFPageEntry where
  assetIndex : Nat
deriving DecidableEq

/-- One section-table record as dereferenced by the driver:
`sectionTitleOffset` (string pool), `sectionStartIndex` (0-based page),
`parentSectionIndex` (`0xFFFFFFFF` = no parent). -/
structure BBFSection where
  sectionTitleOffset : Nat
  sectionStartIndex : Nat
  parentSectionIndex : Nat
deriving DecidableEq

/-- Default records for `List.getD`; the claims' theorems only ever read
in-bounds positions. -/
def dAsset : BBFAssetEntry := ⟨0, 0, 0, 0⟩

/-- Default page record for `List.getD`. -/
def dPage : BBFPageEntry := ⟨0⟩

/-- Default section record for `List.getD`. -/
def dSec : BBFSection := ⟨0, 0, 0⟩

/-- The "no parent" sentinel `0xFFFFFFFF` (src/src/bbfenc.cpp:436), the
maximum representable `uint32_t` value. -/
def SENTINEL : Nat := 4294967295

/-! ## Section range resolution (src/src/bbfenc.cpp:354-368) -/

/-- The loop body condition at src/src/bbfenc.cpp:363: section `s` starts
later than `start` and has the same parent as the target section. -/
def sibCond (start myParent : Nat) (s : BBFSection) : Bool :=
  decide (start < s.sectionStartIndex) && (s.parentSectionIndex == myParent)

/-- The inner `for (j = i + 1; ...)` loop of src/src/bbfenc.cpp:361-368 run on
the sections after the target: the first section that starts later and shares
the target's parent gives the end page; otherwise the default (`pages.size()`)
stands. -/
def findEnd (start myParent dflt : Nat) : List BBFSection → Nat
  | [] => dflt
  | s :: tl =>
    if sibCond start myParent s then s.sectionStartIndex
    else findEnd start myParent dflt tl

/-- Range resolution for the section at table index `i`
(src/src/bbfenc.cpp:354-368): `start` is the section's own start page, `end`
comes from scanning the sections after index `i`. -/
def resolveRange (sections : List BBFSection) (i pageCount : Nat) : Nat × Nat :=
  let s := sections.getD i dSec
  (s.sectionStartIndex,
   findEnd s.sectionStartIndex s.parentSectionIndex pageCount
     (sections.drop (i + 1)))

/-- The `found` search of src/src/bbfenc.cpp:350-371: index of the first
section whose title (quote-trimmed, looked up in the pool) equals the target
name. -/
def findSecIdxAux (stringPool target : List Nat) :
    List BBFSection → Nat → Option Nat
  | [], _ => none
  | s :: tl, i =>
    if trimQuotes (getString stringPool s.sectionTitleOffset) == target then
      some i
    else findSecIdxAux stringPool target tl (i + 1)

/-- Entry point of the title search, starting at table index 0. -/
def findSecIdx (stringPool : List Nat) (sections : List BBFSection)
    (target : List Nat) : Option Nat :=
  findSecIdxAux stringPool target sections 0

/-- The page range the extract mode resolves for a non-empty `--section`
name: `none` exactly when no title matches (the `found == false` path). -/
def resolveTarget (stringPool : List Nat) (sections : List BBFSection)
    (target : List Nat) (pageCount : Nat) : Option (Nat × Nat) :=
  match findSecIdx stringPool sections target with
  | none => none
  | some i => some (resolveRange sections i pageCount)

/-! ## Extraction (src/src/bbfenc.cpp:339-396) -/

/-- Byte list of the extension string `".avif"`. -/
def AVIF_EXT : List Nat := [46, 97, 118, 105, 102]

/-- Byte list of the extension string `".png"`. -/
def PNG_EXT : List Nat := [46, 112, 110, 103]

/-- The extension choice at src/src/bbfenc.cpp:385:
`(asset.type == 0x01) ? ".avif" : ".png"`. -/
def extOf (type : Nat) : List Nat :=
  if type == 1 then AVIF_EXT else PNG_EXT

/-- One extracted page file. The on-disk name is
`page_<pageNumber><ext>` with `pageNumber` rendered in decimal
(src/src/bbfenc.cpp:386); the number is kept as a `Nat` here. -/
structure OutFile where
  pageNumber : Nat
  ext : List Nat
  content : List Nat
deriving DecidableEq

/-- The body of the extraction loop for page index `i`
(src/src/bbfenc.cpp:382-394): look up the page's asset (the C++ indexing
`assets[pages[i].assetIndex]` is unchecked; `getD` totalises it), pick the
extension from the asset type, and re-read the asset's byte range. -/
def mkOutFile (file : List Nat) (assets : List BBFAssetEntry)
    (pages : List BBFPageEntry) (i : Nat) : OutFile :=
  let asset := assets.getD ((pages.getD i dPage).assetIndex) dAsset
  { pageNumber := i + 1
    ext := extOf asset.type
    content := readBytes file asset.offset asset.length }

/-- The extraction loop `for (i = start; i < end; ++i)`
(src/src/bbfenc.cpp:382-394): one output file per page index in
`[start, end)`. -/
def writePages (file : List Nat) (assets : List BBFAssetEntry)
    (pages : List BBFPageEntry) (start e : Nat) : List OutFile :=
  (List.range' start (e - start)).map (mkOutFile file assets pages)

/-- Observable outcome of one run of the extract mode: whether
`fs::create_directories(outDir)` ran, the process exit code, and the page
files written. -/
structure ExtractResult where
  dirCreated : Bool
  exitCode : Nat
  files : List OutFile
deriving DecidableEq

/-- The extract mode (src/src/bbfenc.cpp:339-396), after a successful open.
The output directory is created first (line 341, before any table is read or
the target resolved). With an empty `--section` the whole book `[0, pageCount)`
is written; with a non-empty name, an unmatched name prints an error and
returns exit code 1 (line 376) with no page file written, and a matched name
extracts its resolved range and falls through to `return 0`. -/
def bbfExtract (file stringPool : List Nat) (pages : List BBFPageEntry)
    (assets : List BBFAssetEntry) (sections : List BBFSection)
    (target : List Nat) : ExtractResult :=
  if target.isEmpty then
    { dirCreated := true
      exitCode := 0
      files := writePages file assets pages 0 pages.length }
  else
    match resolveTarget stringPool sections target pages.length with
    | none => { dirCreated := true, exitCode := 1, files := [] }
    | some r =>
      { dirCreated := true
        exitCode := 0
        files := writePages file assets pages r.1 r.2 }

/-! ## Verify mode (src/src/bbfenc.cpp:319-337) -/

/-- The verify loop starting at asset index `i`: each asset's byte range is
re-read and re-hashed; a mismatch records the asset's index (the
`std::cerr << "Mismatch in asset " << i` report) and clears the `clean` flag.
The loop never aborts early: the recursion always continues over the whole
table. Returns (mismatch indices in loop order, final `clean` flag). -/
def verifyLoop (h : List Nat → Nat) (file : List Nat) :
    List BBFAssetEntry → Nat → List Nat × Bool
  | [], _ => ([], true)
  | a :: tl, i =>
    let rest := verifyLoop h file tl (i + 1)
    if h (readBytes file a.offset a.length) == a.xxh3Hash then rest
    else (i :: rest.1, false)

/-- Observable outcome of one run of the verify mode: the mismatching asset
indices (reported individually on stderr), whether the
`"Integrity Check Passed."` message is printed, and the process exit code. -/
structure VerifyRun where
  mismatches : List Nat
  passedMessage : Bool
  exitCode : Nat
deriving DecidableEq

/-- The verify mode (src/src/bbfenc.cpp:319-337), after a successful open.
The loop's outcome only drives console output: `main` falls through to
`return 0` (src/src/bbfenc.cpp:457) whatever `clean` is, so the exit code is
the constant 0 here. -/
def runVerifyMode (h : List Nat → Nat) (file : List Nat)
    (assets : List BBFAssetEntry) : VerifyRun :=
  let r := verifyLoop h file assets 0
  { mismatches := r.1, passedMessage := r.2, exitCode := 0 }

/-! ## Mux mode: section requests (src/src/bbfenc.cpp:430-444) and the
driver tail (src/src/bbfenc.cpp:452-457) -/

/-- One `--section=Name:Page[:Parent]` request as parsed by the argument loop
(src/src/bbfenc.cpp:221-247): quote-trimmed name, quote-trimmed parent name
(empty when absent), 1-based page number (a `uint32_t`). -/
structure SecReq where
  name : List Nat
  parent : List Nat
  page : Nat
deriving DecidableEq

/-- Default section request for `List.getD`. -/
def dReq : SecReq := ⟨[], [], 0⟩

/-- One section record as handed to `builder.addSection(name, page-1, parent)`
(src/src/bbfenc.cpp:442). Modelled from the spec: `BBFBuilder::addSection`
(declared in `libbbf.h`, not under src/) "interns `title` into the StringPool,
appends a Section record" (spec §4.4); the appended record is kept here with
its title as the name string. -/
structure MuxSection where
  name : List Nat
  startPage : Nat
  parentIndex : Nat
deriving DecidableEq

/-- Default mux section record for `List.getD`. -/
def dMux : MuxSection := ⟨[], 0, 0⟩

/-- `sectionNameToIdx.count(k)` / `sectionNameToIdx[k]`
(src/src/bbfenc.cpp:431,437-439): the map is modelled as an association list
where insertion prepends, so the first hit is the most recent binding —
matching `std::unordered_map` overwrite semantics. -/
def lookupIdx (m : List (List Nat × Nat)) (k : List Nat) : Option Nat :=
  match m.find? (fun p => p.1 == k) with
  | some p => some p.2
  | none => none

/-- The section-request loop (src/src/bbfenc.cpp:434-444). For each request:
default parent index `0xFFFFFFFF`; if the request names a non-empty parent
that the map already holds, use the mapped index; append the section (the
stored start page is the `uint32_t` value of `s.page - 1`, written here as
`(page + 2^32 - 1) % 2^32`); then bind the request's own name to the running
`uint32_t` counter and increment it. -/
def muxSections : List SecReq → List (List Nat × Nat) → Nat → List MuxSection
  | [], _, _ => []
  | s :: tl, m, counter =>
    let parentIdx :=
      if s.parent.isEmpty then SENTINEL
      else
        match lookupIdx m s.parent with
        | some v => v
        | none => SENTINEL
    ⟨s.name, (s.page + SENTINEL) % (SENTINEL + 1), parentIdx⟩ ::
      muxSections tl ((s.name, counter % (SENTINEL + 1)) :: m) (counter + 1)

/-- The section table produced by a mux run from its parsed `--section`
requests: the loop starts with an empty map and counter 0. -/
def muxSectionTable (reqs : List SecReq) : List MuxSection :=
  muxSections reqs [] 0

/-- Observable outcome of the mux mode's tail. -/
structure MuxOutcome where
  exitCode : Nat
  successMessage : Bool
deriving DecidableEq

/-- The mux branch of `main` (src/src/bbfenc.cpp:398-457): with fewer than two
non-option arguments it prints an error and returns 1 (line 403); otherwise it
builds the container and runs `if (builder.finalize()) std::cout << ...`
(line 452) — the finalize result (here a parameter, `BBFBuilder` lives in
`libbbf.h`) gates only the success message, and control falls through to
`return 0` (line 457). -/
def runMuxMode (hasOutputAndInput finalizeOk : Bool) : MuxOutcome :=
  if hasOutputAndInput then { exitCode := 0, successMessage := finalizeOk }
  else { exitCode := 1, successMessage := false }

/-! ## Spec-side predicates used by the theorem statements -/

/-- Default output-file record for `List.getD`. -/
def dOut : OutFile := ⟨0, [], []⟩

/-- Asset `j` of the table mismatches: re-hashing its re-read byte range does
not reproduce the stored hash (the comparison at src/src/bbfenc.cpp:329). -/
def assetMismatch (h : List Nat → Nat) (file : List Nat)
    (assets : List BBFAssetEntry) (j : Nat) : Prop :=
  h (readBytes file (assets.getD j dAsset).offset (assets.getD j dAsset).length)
    ≠ (assets.getD j dAsset).xxh3Hash

instance (h : List Nat → Nat) (file : List Nat) (assets : List BBFAssetEntry)
    (j : Nat) : Decidable (assetMismatch h file assets j) := by
  unfold assetMismatch; infer_instance

/-- Section `j` is a later-starting sibling of section `i` (spec §4.4): it
starts strictly later in the book and has the same parent index. -/
def sibAt (sections : List BBFSection) (i j : Nat) : Prop :=
  (sections.getD i dSec).sectionStartIndex
      < (sections.getD j dSec).sectionStartIndex ∧
    (sections.getD j dSec).parentSectionIndex
      = (sections.getD i dSec).parentSectionIndex

instance (sections : List BBFSection) (i j : Nat) :
    Decidable (sibAt sections i j) := by
  unfold sibAt; infer_instance

/-! ## Theorems -/

/-- Helper: `takeWhile (· != 0)` of a null-free prefix followed by a null stops
exactly at the prefix. -/
theorem takeWhile_nullfree_append (xs ys : List Nat) (h : ∀ b ∈ xs, b ≠ 0) :
    (xs ++ 0 :: ys).takeWhile (fun b => b != 0) = xs := by
  induction xs with
  | nil => simp [List.takeWhile]
  | cons a tl ih =>
    have ha : a ≠ 0 := h a (by simp)
    have htl : ∀ b ∈ tl, b ≠ 0 := fun b hb => h b (by simp [hb])
    simp only [List.cons_append, List.takeWhile]
    have : (a != 0) = true := by simpa using ha
    rw [this]
    simp [ih htl]

/-- Helper: `getD` after `drop` reindexes. -/
theorem getD_drop {α : Type _} (l : List α) (n k : Nat) (d : α) :
    (l.drop n).getD k d = l.getD (n + k) d := by
  induction n generalizing l with
  | zero => simp
  | succ m ih =>
    cases l with
    | nil => simp
    | cons a tl =>
      have h1 : m + 1 + k = (m + k) + 1 := by omega
      simp only [List.drop_succ_cons]
      rw [ih tl, h1]
      simp [List.getD_cons_succ]

/-! ## Claim C3: string-pool lookup bounds checking -/

/-- C3, counterexample. The claim says every offset that is not a valid
interned-string start — including offsets into the middle of a stored string —
fails with the out-of-range error. In the pool `"ab\0"` (bytes `[97, 98, 0]`),
offset 1 points into the middle of the stored string `"ab"`, hence is not a
valid interned-string start; yet `getString` succeeds and returns the string
`"b"` (byte `[98]`), not the `OFFSET_ERR` sentinel. -/
theorem C3_counterexample :
    ¬ validStringStart [97, 98, 0] 1 ∧
      getString [97, 98, 0] 1 = [98] ∧
      getString [97, 98, 0] 1 ≠ OFFSET_ERR := by
  decide

/-- C3, amended: `BBFReader::getString` rejects (with the `OFFSET_ERR`
sentinel, the code's rendering of `OffsetOutOfRange`) exactly the offsets at
or past the pool length; an offset that lies inside the pool but in the middle
of a stored string is *not* rejected — it returns the suffix of that string
from the offset to its null terminator, a regular string value. -/
theorem C3_lookup_bounds :
    (∀ stringPool offset, stringPool.length ≤ offset →
        getString stringPool offset = OFFSET_ERR) ∧
    (∀ (s rest : List Nat) (offset : Nat), (∀ b ∈ s, b ≠ 0) →
        offset ≤ s.length →
        getString (s ++ 0 :: rest) offset = s.drop offset) := by
  constructor
  · intro stringPool offset h
    simp [getString, h]
  · intro s rest offset hnull hoff
    have hlen : ¬ (s ++ 0 :: rest).length ≤ offset := by
      simp only [List.length_append, List.length_cons]
      omega
    have hdrop : (s ++ 0 :: rest).drop offset = s.drop offset ++ 0 :: rest :=
      List.drop_append_of_le_length hoff
    have hsub : ∀ b ∈ s.drop offset, b ≠ 0 := fun b hb =>
      hnull b (List.mem_of_mem_drop hb)
    simp only [getString, if_neg hlen, hdrop]
    exact takeWhile_nullfree_append _ _ hsub

/-- C3 witness: the amended theorem evaluated at concrete inputs — offset 5 in
a 1-byte pool yields the sentinel; offset 1 in the pool `"ab\0c\0"` yields the
mid-string suffix `"b"`. -/
theorem C3_lookup_bounds_witness :
    getString [97] 5 = OFFSET_ERR ∧ getString [97, 98, 0, 99, 0] 1 = [98] := by
  refine ⟨C3_lookup_bounds.1 [97] 5 (by decide), ?_⟩
  have h := C3_lookup_bounds.2 [97, 98] [99, 0] 1 (by decide) (by decide)
  simpa using h

/-! ### Claim C4: open-time validation -/

/-- C4, counterexample. The claim says a file with correct magic values but an
unsupported version byte is rejected at open. The open-time checks accept a
header carrying version byte 255 just as readily as one carrying version 1:
the version byte is never inspected, so no version value is rejected. -/
theorem C4_counterexample :
    bbfOpenChecks ⟨BBF_MAGIC, 255⟩ ⟨BBF_MAGIC, 0, 0, 0, 0, 0, 0, 0, 0, 0⟩
        = true ∧
      bbfOpenChecks ⟨BBF_MAGIC, 1⟩ ⟨BBF_MAGIC, 0, 0, 0, 0, 0, 0, 0, 0, 0⟩
        = true := by
  decide

/-- C4, amended: `BBFReader::open`'s validation succeeds exactly when the
header's 4 magic bytes and the footer's 4 magic bytes both equal `"BBF1"`;
the header's version byte is read and stored but plays no part in the
decision. -/
theorem C4_open_checks (header : BBFHeader) (footer : BBFFooter) :
    bbfOpenChecks header footer = true ↔
      header.magic = BBF_MAGIC ∧ footer.magic = BBF_MAGIC := by
  simp [bbfOpenChecks]

/-- C4 witness: the amended theorem applied at a concrete header/footer pair
with matching magics. -/
theorem C4_open_checks_witness :
    bbfOpenChecks ⟨BBF_MAGIC, 7⟩ ⟨BBF_MAGIC, 9, 9, 0, 0, 0, 0, 0, 0, 0⟩
      = true :=
  (C4_open_checks ⟨BBF_MAGIC, 7⟩ ⟨BBF_MAGIC, 9, 9, 0, 0, 0, 0, 0, 0, 0⟩).mpr
    ⟨rfl, rfl⟩

/-! ### Claim C9: mux exit code ignores finalize -/

/-- C9: once the mux branch reaches the build (it has an output name and at
least one input), the process exit code is 0 whatever `builder.finalize()`
returns; the finalize result gates exactly the success message. -/
theorem C9_mux_exit_code (finalizeOk : Bool) :
    (runMuxMode true finalizeOk).exitCode = 0 ∧
      ((runMuxMode true finalizeOk).successMessage = true ↔
        finalizeOk = true) := by
  cases finalizeOk <;> simp [runMuxMode]

/-! ### Claim C1: verify exit code (code bug) -/

/-- C1, divergence witness. A one-asset file whose stored hash (999) differs
from the asset's recomputed hash: the verify mode reports asset 0 as a
mismatch and suppresses the pass message, yet the process exit code is still
0 — `main` falls through to `return 0` (src/src/bbfenc.cpp:457) with no
non-zero return on the mismatch path, contradicting spec §6
("non-zero exit on any mismatch"). -/
theorem C1_verify_exit_code_bug :
    (runVerifyMode (fun l => l.length) [7, 7, 7] [⟨0, 2, 999, 2⟩]).mismatches
        = [0] ∧
      (runVerifyMode (fun l => l.length) [7, 7, 7]
          [⟨0, 2, 999, 2⟩]).passedMessage = false ∧
      (runVerifyMode (fun l => l.length) [7, 7, 7]
          [⟨0, 2, 999, 2⟩]).exitCode = 0 := by
  decide

/-! ### Claim C8: the output directory is created before the failure -/

/-- C8: the extract mode creates the output directory unconditionally
(src/src/bbfenc.cpp:341, before the section table is even read), so a run
that then fails with SectionNotFound (exit code 1) has already created the
directory while writing no page file: the failed operation is not effect-free
on the filesystem. -/
theorem C8_outdir_created (file stringPool : List Nat)
    (pages : List BBFPageEntry) (assets : List BBFAssetEntry)
    (sections : List BBFSection) (target : List Nat) :
    (bbfExtract file stringPool pages assets sections target).dirCreated
        = true ∧
      ((bbfExtract file stringPool pages assets sections target).exitCode = 1 →
        (bbfExtract file stringPool pages assets sections target).files
          = []) := by
  unfold bbfExtract
  by_cases ht : target.isEmpty
  · simp [ht]
  · simp only [ht, Bool.false_eq_true, if_false]
    cases hr : resolveTarget stringPool sections target pages.length <;> simp

/-- C8 witness: the theorem applied to a run whose target section `"X"` is
absent (exit code 1): directory created, no files. -/
theorem C8_outdir_created_witness :
    (bbfExtract [] [] [] [] [] [88]).dirCreated = true ∧
      (bbfExtract [] [] [] [] [] [88]).files = [] :=
  ⟨(C8_outdir_created [] [] [] [] [] [88]).1,
   (C8_outdir_created [] [] [] [] [] [88]).2 (by decide)⟩

/-! ### Claim C10: extension choice during extraction -/

/-- Helper: indexing a mapped `range'`. -/
theorem getD_map_range' {α : Type _} (f : Nat → α) (s n k : Nat) (d : α)
    (h : k < n) : ((List.range' s n).map f).getD k d = f (s + k) := by
  induction n generalizing s k with
  | zero => omega
  | succ m ih =>
    rw [List.range'_succ]
    cases k with
    | zero => simp
    | succ j =>
      simp only [List.map_cons, List.getD_cons_succ]
      rw [ih (s + 1) j (by omega)]
      congr 1
      omega

/-- Helper: the ternary at src/src/bbfenc.cpp:385 picks `".avif"` exactly for
tag 1. -/
theorem extOf_avif_iff (t : Nat) : extOf t = AVIF_EXT ↔ t = 1 := by
  by_cases h : t = 1
  · simp [extOf, h]
  · have hb : (t == 1) = false := by simpa using h
    simp only [extOf, hb, Bool.false_eq_true, if_false]
    constructor
    · intro hw
      exact absurd hw (by decide)
    · intro h1
      exact absurd h1 h

/-- Helper: the ternary always produces one of the two extensions. -/
theorem extOf_cases (t : Nat) : extOf t = AVIF_EXT ∨ extOf t = PNG_EXT := by
  by_cases h : t = 1
  · left
    simp [extOf, h]
  · right
    have hb : (t == 1) = false := by simpa using h
    simp [extOf, hb]

/-- C10: the extraction loop writes exactly one file per page index in the
resolved range, never skipping or failing on a page: the file for the `k`-th
page of the range carries 1-based page number `start + k + 1`, its extension
is `".avif"` exactly when the referenced asset's type tag is `0x01`, and every
other tag value — recognized or not — yields `".png"`. -/
theorem C10_extension_choice (file : List Nat) (assets : List BBFAssetEntry)
    (pages : List BBFPageEntry) (start e : Nat) :
    (writePages file assets pages start e).length = e - start ∧
    ∀ k, k < e - start →
      ((writePages file assets pages start e).getD k dOut).pageNumber
          = start + k + 1 ∧
        (((writePages file assets pages start e).getD k dOut).ext = AVIF_EXT ↔
          (assets.getD ((pages.getD (start + k) dPage).assetIndex) dAsset).type
            = 1) ∧
        (((writePages file assets pages start e).getD k dOut).ext = AVIF_EXT ∨
          ((writePages file assets pages start e).getD k dOut).ext = PNG_EXT)
    := by
  constructor
  · simp [writePages]
  · intro k hk
    have hidx : (writePages file assets pages start e).getD k dOut
        = mkOutFile file assets pages (start + k) :=
      getD_map_range' (mkOutFile file assets pages) start (e - start) k dOut hk
    rw [hidx]
    exact ⟨rfl, extOf_avif_iff _, extOf_cases _⟩

/-- C10 witness: the theorem applied to a two-page book whose first page's
asset has the AVIF tag 1 and whose second page's asset has the unrecognized
tag 9 — both pages are written, with extensions `".avif"` and `".png"`. -/
theorem C10_extension_choice_witness :
    ((writePages [1, 2] [⟨0, 1, 0, 1⟩, ⟨1, 1, 0, 9⟩] [⟨0⟩, ⟨1⟩] 0 2).getD 0
        dOut).ext = AVIF_EXT ∧
      ((writePages [1, 2] [⟨0, 1, 0, 1⟩, ⟨1, 1, 0, 9⟩] [⟨0⟩, ⟨1⟩] 0 2).getD 1
        dOut).ext = PNG_EXT ∧
      (writePages [1, 2] [⟨0, 1, 0, 1⟩, ⟨1, 1, 0, 9⟩] [⟨0⟩, ⟨1⟩] 0 2).length
        = 2 := by
  have h := C10_extension_choice [1, 2] [⟨0, 1, 0, 1⟩, ⟨1, 1, 0, 9⟩]
    [⟨0⟩, ⟨1⟩] 0 2
  refine ⟨(h.2 0 (by decide)).2.1.mpr (by decide), ?_, by simpa using h.1⟩
  rcases (h.2 1 (by decide)).2.2 with ha | hp
  · exact absurd ((h.2 1 (by decide)).2.1.mp ha) (by decide)
  · exact hp

/-! ### Claim C6: unknown section name -/

/-- Helper: the title search finds nothing exactly when no section's
quote-trimmed title equals the target, whatever the starting index. -/
theorem findSecIdxAux_eq_none_iff (stringPool target : List Nat)
    (l : List BBFSection) (i : Nat) :
    findSecIdxAux stringPool target l i = none ↔
      ∀ s ∈ l, trimQuotes (getString stringPool s.sectionTitleOffset)
        ≠ target := by
  induction l generalizing i with
  | nil => simp [findSecIdxAux]
  | cons s tl ih =>
    by_cases h : trimQuotes (getString stringPool s.sectionTitleOffset)
        = target
    · have hb : (trimQuotes (getString stringPool s.sectionTitleOffset)
          == target) = true := by simpa using h
      constructor
      · intro hnone
        simp [findSecIdxAux, hb] at hnone
      · intro hall
        exact absurd h (hall s (by simp))
    · have hb : (trimQuotes (getString stringPool s.sectionTitleOffset)
          == target) = false := by simpa using h
      simp only [findSecIdxAux, hb, Bool.false_eq_true, if_false]
      rw [ih (i + 1)]
      constructor
      · intro hall s' hs'
        rcases List.mem_cons.mp hs' with rfl | hm
        · exact h
        · exact hall s' hm
      · intro hall s' hs'
        exact hall s' (List.mem_cons_of_mem s hs')

/-- C6: extracting with a non-empty `--section` name that matches no
section's title fails (exit code 1, the SectionNotFound path at
src/src/bbfenc.cpp:373-377) and writes no page file; when some section's
title matches, the run does not fail (it falls through to `return 0`). -/
theorem C6_section_not_found (file stringPool : List Nat)
    (pages : List BBFPageEntry) (assets : List BBFAssetEntry)
    (sections : List BBFSection) (target : List Nat) (hne : target ≠ []) :
    ((∀ s ∈ sections,
        trimQuotes (getString stringPool s.sectionTitleOffset) ≠ target) →
      bbfExtract file stringPool pages assets sections target
        = { dirCreated := true, exitCode := 1, files := [] }) ∧
    ((∃ s ∈ sections,
        trimQuotes (getString stringPool s.sectionTitleOffset) = target) →
      (bbfExtract file stringPool pages assets sections target).exitCode
        = 0) := by
  have hempty : target.isEmpty = false := by
    cases target with
    | nil => exact absurd rfl hne
    | cons a tl => rfl
  constructor
  · intro hall
    have hnone : findSecIdx stringPool sections target = none :=
      (findSecIdxAux_eq_none_iff stringPool target sections 0).mpr hall
    simp [bbfExtract, hempty, resolveTarget, hnone]
  · intro hex
    cases hf : findSecIdx stringPool sections target with
    | none =>
      rcases hex with ⟨s, hs, hmatch⟩
      exact absurd hmatch
        ((findSecIdxAux_eq_none_iff stringPool target sections 0).mp hf s hs)
    | some j =>
      simp [bbfExtract, hempty, resolveTarget, hf]

/-- C6 witness: the theorem applied to a run with target `"X"` over an empty
section table (failure with no output) and to a run with target `"A"` over a
table holding a section titled `"A"` (no failure). -/
theorem C6_section_not_found_witness :
    bbfExtract [] [] [] [] [] [88]
        = { dirCreated := true, exitCode := 1, files := [] } ∧
      (bbfExtract [] [65, 0] [] [] [⟨0, 0, SENTINEL⟩] [65]).exitCode = 0 := by
  constructor
  · exact (C6_section_not_found [] [] [] [] [] [88] (by decide)).1
      (fun s hs => absurd hs (List.not_mem_nil s))
  · exact (C6_section_not_found [] [65, 0] [] [] [⟨0, 0, SENTINEL⟩] [65]
      (by decide)).2 ⟨⟨0, 0, SENTINEL⟩, by simp, by decide⟩

/-! ### Claim C5: verify checks every asset, no early abort -/

/-- Helper: membership in the verify loop's mismatch report, for any starting
index `k`: index `k + j` is reported exactly when asset `j` of the remaining
table mismatches. -/
theorem verifyLoop_mem_iff (h : List Nat → Nat) (file : List Nat)
    (l : List BBFAssetEntry) (k m : Nat) :
    m ∈ (verifyLoop h file l k).1 ↔
      ∃ j, j < l.length ∧ m = k + j ∧ assetMismatch h file l j := by
  induction l generalizing k with
  | nil => simp [verifyLoop]
  | cons a tl ih =>
    by_cases hm0 : (h (readBytes file a.offset a.length) == a.xxh3Hash) = true
    · have hx : h (readBytes file a.offset a.length) = a.xxh3Hash := by
        simpa using hm0
      have hnm : ¬ assetMismatch h file (a :: tl) 0 := by
        simp [assetMismatch, hx]
      rw [show verifyLoop h file (a :: tl) k = verifyLoop h file tl (k + 1)
        from by simp [verifyLoop, hm0]]
      rw [ih (k + 1)]
      constructor
      · rintro ⟨j, hj, rfl, hmm⟩
        exact ⟨j + 1, by simpa using Nat.succ_lt_succ hj, by omega, hmm⟩
      · rintro ⟨j, hj, rfl, hmm⟩
        cases j with
        | zero => exact absurd hmm hnm
        | succ j' =>
          refine ⟨j', by simpa using Nat.lt_of_succ_lt_succ hj, by omega, hmm⟩
    · have hmm0 : assetMismatch h file (a :: tl) 0 := by
        have hx : h (readBytes file a.offset a.length) ≠ a.xxh3Hash := by
          simpa using hm0
        simpa [assetMismatch] using hx
      have hloop : verifyLoop h file (a :: tl) k
          = (k :: (verifyLoop h file tl (k + 1)).1, false) := by
        simp [verifyLoop, hm0]
      rw [hloop]
      simp only [List.mem_cons]
      rw [ih (k + 1)]
      constructor
      · rintro (rfl | ⟨j, hj, rfl, hmm⟩)
        · exact ⟨0, by simp, by omega, hmm0⟩
        · exact ⟨j + 1, by simpa using Nat.succ_lt_succ hj, by omega, hmm⟩
      · rintro ⟨j, hj, rfl, hmm⟩
        cases j with
        | zero => left; omega
        | succ j' =>
          right
          refine ⟨j', by simpa using Nat.lt_of_succ_lt_succ hj, by omega, hmm⟩

/-- Helper: the verify loop's `clean` flag, for any starting index: true
exactly when no remaining asset mismatches. -/
theorem verifyLoop_clean_iff (h : List Nat → Nat) (file : List Nat)
    (l : List BBFAssetEntry) (k : Nat) :
    (verifyLoop h file l k).2 = true ↔
      ∀ j, j < l.length → ¬ assetMismatch h file l j := by
  induction l generalizing k with
  | nil => simp [verifyLoop]
  | cons a tl ih =>
    by_cases hm0 : (h (readBytes file a.offset a.length) == a.xxh3Hash) = true
    · have hx : h (readBytes file a.offset a.length) = a.xxh3Hash := by
        simpa using hm0
      have hnm : ¬ assetMismatch h file (a :: tl) 0 := by
        simp [assetMismatch, hx]
      rw [show verifyLoop h file (a :: tl) k = verifyLoop h file tl (k + 1)
        from by simp [verifyLoop, hm0]]
      rw [ih (k + 1)]
      constructor
      · intro hall j hj
        cases j with
        | zero => exact hnm
        | succ j' => exact hall j' (by simpa using Nat.lt_of_succ_lt_succ hj)
      · intro hall j hj
        exact hall (j + 1) (by simpa using Nat.succ_lt_succ hj)
    · have hmm0 : assetMismatch h file (a :: tl) 0 := by
        have hx : h (readBytes file a.offset a.length) ≠ a.xxh3Hash := by
          simpa using hm0
        simpa [assetMismatch] using hx
      have hloop : verifyLoop h file (a :: tl) k
          = (k :: (verifyLoop h file tl (k + 1)).1, false) := by
        simp [verifyLoop, hm0]
      rw [hloop]
      constructor
      · intro hfalse
        exact absurd hfalse (by simp)
      · intro hall
        exact absurd hmm0 (hall 0 (by simp))

/-- C5: the verify mode checks every asset of the table (asset `i` is in the
mismatch report exactly when re-hashing its re-read byte range disagrees with
its stored hash — so no early abort can skip an asset), reports only real
asset indices, and prints the overall pass message exactly when the report is
empty. -/
theorem C5_verify_no_early_abort (h : List Nat → Nat) (file : List Nat)
    (assets : List BBFAssetEntry) :
    (∀ i, i < assets.length →
      (i ∈ (runVerifyMode h file assets).mismatches ↔
        assetMismatch h file assets i)) ∧
    (∀ i ∈ (runVerifyMode h file assets).mismatches, i < assets.length) ∧
    ((runVerifyMode h file assets).passedMessage = true ↔
      (runVerifyMode h file assets).mismatches = []) := by
  have hmm : (runVerifyMode h file assets).mismatches
      = (verifyLoop h file assets 0).1 := rfl
  have hpm : (runVerifyMode h file assets).passedMessage
      = (verifyLoop h file assets 0).2 := rfl
  refine ⟨?_, ?_, ?_⟩
  · intro i hi
    rw [hmm, verifyLoop_mem_iff]
    constructor
    · rintro ⟨j, hj, rfl, hmmj⟩
      simpa using hmmj
    · intro hmi
      exact ⟨i, hi, by omega, hmi⟩
  · intro i him
    rw [hmm, verifyLoop_mem_iff] at him
    rcases him with ⟨j, hj, rfl, _⟩
    omega
  · rw [hpm, hmm, verifyLoop_clean_iff]
    constructor
    · intro hall
      by_contra hne
      rcases List.exists_mem_of_ne_nil _ hne with ⟨m, hm⟩
      rw [verifyLoop_mem_iff] at hm
      rcases hm with ⟨j, hj, rfl, hmmj⟩
      exact hall j hj hmmj
    · intro hnil j hj hmmj
      have hj2 : j ∈ (verifyLoop h file assets 0).1 :=
        (verifyLoop_mem_iff h file assets 0 j).mpr ⟨j, hj, by omega, hmmj⟩
      rw [hnil] at hj2
      exact absurd hj2 (List.not_mem_nil j)

/-- C5 witness: the theorem applied to a two-asset file where asset 0's stored
hash is wrong and asset 1's is right — asset 0 is reported, asset 1 is not. -/
theorem C5_verify_no_early_abort_witness :
    0 ∈ (runVerifyMode (fun l => l.length) [9, 9]
        [⟨0, 1, 5, 2⟩, ⟨1, 1, 1, 2⟩]).mismatches ∧
      1 ∉ (runVerifyMode (fun l => l.length) [9, 9]
        [⟨0, 1, 5, 2⟩, ⟨1, 1, 1, 2⟩]).mismatches := by
  have h := C5_verify_no_early_abort (fun l => l.length) [9, 9]
    [⟨0, 1, 5, 2⟩, ⟨1, 1, 1, 2⟩]
  constructor
  · exact (h.1 0 (by decide)).mpr (by decide)
  · intro hmem
    exact absurd ((h.1 1 (by decide)).mp hmem) (by decide)

/-! ### Claim C2: section range resolution -/

/-- Helper: when no scanned section satisfies the sibling condition, the end
page stays at the default (`pages.size()`). -/
theorem findEnd_no_sib (a p d : Nat) (l : List BBFSection)
    (h : ∀ k, k < l.length → sibCond a p (l.getD k dSec) = false) :
    findEnd a p d l = d := by
  induction l with
  | nil => rfl
  | cons s tl ih =>
    have h0 : sibCond a p s = false := by
      simpa using h 0 (by simp)
    simp only [findEnd, h0, Bool.false_eq_true, if_false]
    exact ih (fun k hk => by
      simpa using h (k + 1) (by simpa using Nat.succ_lt_succ hk))

/-- Helper: the scan stops at the first position satisfying the sibling
condition and returns that section's start page. -/
theorem findEnd_first_sib (a p d : Nat) (l : List BBFSection) (j : Nat)
    (hj : j < l.length) (hsib : sibCond a p (l.getD j dSec) = true)
    (hmin : ∀ k, k < j → sibCond a p (l.getD k dSec) = false) :
    findEnd a p d l = (l.getD j dSec).sectionStartIndex := by
  induction l generalizing j with
  | nil => simp at hj
  | cons s tl ih =>
    cases j with
    | zero =>
      have h0 : sibCond a p s = true := by simpa using hsib
      simp [findEnd, h0]
    | succ j' =>
      have h0 : sibCond a p s = false := by
        simpa using hmin 0 (by simp)
      simp only [findEnd, h0, Bool.false_eq_true, if_false,
        List.getD_cons_succ]
      exact ih j' (by simpa using Nat.lt_of_succ_lt_succ hj)
        (by simpa using hsib)
        (fun k hk => by
          have hs := hmin (k + 1) (Nat.succ_lt_succ hk)
          simpa using hs)

/-- Helper: the loop condition at src/src/bbfenc.cpp:363, read off against the
spec-side sibling predicate between table indices. -/
theorem sibCond_iff (sections : List BBFSection) (i j : Nat) :
    sibCond (sections.getD i dSec).sectionStartIndex
        (sections.getD i dSec).parentSectionIndex (sections.getD j dSec)
        = true ↔ sibAt sections i j := by
  simp [sibCond, sibAt]

/-- C2: for the target section at table index `i`, extract resolves the range
`[sections[i].startPageIndex, end)` where `end` is `pageCount` when no later
table entry starts after the target and shares its parent, and otherwise the
start page of the first such entry; on the spec's concrete example — sections
A(start 0, no parent), B(start 5, parent A), C(start 10, no parent) over a
10-page book — the names A, B and C resolve to [0,10), [5,10) and [10,10). -/
theorem C2_section_range (sections : List BBFSection) (i pageCount : Nat)
    (hi : i < sections.length) :
    (resolveRange sections i pageCount).1
        = (sections.getD i dSec).sectionStartIndex ∧
    ((∀ j, i < j → j < sections.length → ¬ sibAt sections i j) →
      (resolveRange sections i pageCount).2 = pageCount) ∧
    (∀ j, i < j → j < sections.length → sibAt sections i j →
      (∀ k, i < k → k < j → ¬ sibAt sections i k) →
      (resolveRange sections i pageCount).2
        = (sections.getD j dSec).sectionStartIndex) ∧
    (resolveTarget [65, 0, 66, 0, 67, 0]
        [⟨0, 0, SENTINEL⟩, ⟨2, 5, 0⟩, ⟨4, 10, SENTINEL⟩] [65] 10
        = some (0, 10) ∧
      resolveTarget [65, 0, 66, 0, 67, 0]
        [⟨0, 0, SENTINEL⟩, ⟨2, 5, 0⟩, ⟨4, 10, SENTINEL⟩] [66] 10
        = some (5, 10) ∧
      resolveTarget [65, 0, 66, 0, 67, 0]
        [⟨0, 0, SENTINEL⟩, ⟨2, 5, 0⟩, ⟨4, 10, SENTINEL⟩] [67] 10
        = some (10, 10)) := by
  refine ⟨rfl, ?_, ?_, by decide⟩
  · intro hno
    refine findEnd_no_sib _ _ _ _ (fun k hk => ?_)
    rw [getD_drop]
    have hk' : i + 1 + k < sections.length := by
      have := List.length_drop (i + 1) sections ▸ hk
      omega
    rw [Bool.eq_false_iff]
    intro hc
    exact hno (i + 1 + k) (by omega) hk' ((sibCond_iff sections i (i + 1 + k)).mp hc)
  · intro j hij hj hsib hmin
    have hj' : j - i - 1 < (sections.drop (i + 1)).length := by
      rw [List.length_drop]
      omega
    have heq : i + 1 + (j - i - 1) = j := by omega
    have h1 : sibCond (sections.getD i dSec).sectionStartIndex
        (sections.getD i dSec).parentSectionIndex
        ((sections.drop (i + 1)).getD (j - i - 1) dSec) = true := by
      rw [getD_drop, heq]
      exact (sibCond_iff sections i j).mpr hsib
    have h2 : ∀ k, k < j - i - 1 →
        sibCond (sections.getD i dSec).sectionStartIndex
          (sections.getD i dSec).parentSectionIndex
          ((sections.drop (i + 1)).getD k dSec) = false := by
      intro k hk
      rw [getD_drop, Bool.eq_false_iff]
      intro hc
      exact hmin (i + 1 + k) (by omega) (by omega)
        ((sibCond_iff sections i (i + 1 + k)).mp hc)
    have hres := findEnd_first_sib (sections.getD i dSec).sectionStartIndex
      (sections.getD i dSec).parentSectionIndex pageCount
      (sections.drop (i + 1)) (j - i - 1) hj' h1 h2
    rw [getD_drop, heq] at hres
    exact hres

/-- C2 witness: the theorem applied to the spec's example table at index 2
(section C, the last): no later sibling exists, so the range runs to the page
count — C resolves to [10, 10). -/
theorem C2_section_range_witness :
    (resolveRange [⟨0, 0, SENTINEL⟩, ⟨2, 5, 0⟩, ⟨4, 10, SENTINEL⟩] 2 10).1
        = 10 ∧
      (resolveRange [⟨0, 0, SENTINEL⟩, ⟨2, 5, 0⟩, ⟨4, 10, SENTINEL⟩] 2 10).2
        = 10 := by
  have h := C2_section_range [⟨0, 0, SENTINEL⟩, ⟨2, 5, 0⟩, ⟨4, 10, SENTINEL⟩]
    2 10 (by decide)
  refine ⟨by simpa using h.1, h.2.1 (fun j hj hj' => ?_)⟩
  exfalso
  simp only [List.length_cons, List.length_nil] at hj'
  omega

/-! ### Claim C7: parent resolution during muxing -/

/-- Helper: a successful map lookup returns the value of some stored binding
with the looked-up key. -/
theorem lookupIdx_mem (m : List (List Nat × Nat)) (k : List Nat) (v : Nat)
    (h : lookupIdx m k = some v) : ∃ p ∈ m, p.2 = v := by
  unfold lookupIdx at h
  cases hf : m.find? (fun p => p.1 == k) with
  | none => rw [hf] at h; cases h
  | some p =>
    rw [hf] at h
    refine ⟨p, List.mem_of_find?_eq_some hf, ?_⟩
    cases h
    rfl

/-- Helper: looking up a key bound by no entry of the map fails. -/
theorem lookupIdx_eq_none (m : List (List Nat × Nat)) (k : List Nat)
    (h : ∀ p ∈ m, p.1 ≠ k) : lookupIdx m k = none := by
  unfold lookupIdx
  have hf : m.find? (fun p => p.1 == k) = none :=
    List.find?_eq_none.mpr (fun p hp => by simpa using h p hp)
  rw [hf]

/-- Helper: the section-request loop emits one table record per request. -/
theorem muxSections_length (reqs : List SecReq) (m : List (List Nat × Nat))
    (c : Nat) : (muxSections reqs m c).length = reqs.length := by
  induction reqs generalizing m c with
  | nil => rfl
  | cons s tl ih => simp [muxSections, ih]

/-- Helper (generalized over the running map and counter): a request whose
parent name is bound neither in the incoming map nor by an earlier request of
the remaining list gets the `0xFFFFFFFF` sentinel. -/
theorem muxSections_unknown_parent (reqs : List SecReq)
    (m : List (List Nat × Nat)) (c : Nat) :
    ∀ k, k < reqs.length →
      (∀ p ∈ m, p.1 ≠ (reqs.getD k dReq).parent) →
      (∀ j, j < k → (reqs.getD j dReq).name ≠ (reqs.getD k dReq).parent) →
      ((muxSections reqs m c).getD k dMux).parentIndex = SENTINEL := by
  induction reqs generalizing m c with
  | nil => intro k hk _ _; simp at hk
  | cons s tl ih =>
    intro k hk hmap hearlier
    cases k with
    | zero =>
      by_cases hp : s.parent.isEmpty
      · simp [muxSections, hp]
      · have hnone : lookupIdx m s.parent = none :=
          lookupIdx_eq_none m s.parent (fun p hpm => by
            have := hmap p hpm
            simpa using this)
        simp [muxSections, hp, hnone]
    | succ k' =>
      have hmap' : ∀ p ∈ ((s.name, c % (SENTINEL + 1)) :: m),
          p.1 ≠ (tl.getD k' dReq).parent := by
        intro p hp
        rcases List.mem_cons.mp hp with rfl | hpm
        · have := hearlier 0 (Nat.succ_pos k')
          simpa using this
        · have := hmap p hpm
          simpa using this
      have hearlier' : ∀ j, j < k' →
          (tl.getD j dReq).name ≠ (tl.getD k' dReq).parent := by
        intro j hj
        have := hearlier (j + 1) (Nat.succ_lt_succ hj)
        simpa using this
      have := ih ((s.name, c % (SENTINEL + 1)) :: m) (c + 1) k'
        (by simpa using Nat.lt_of_succ_lt_succ hk) hmap' hearlier'
      simpa [muxSections] using this

/-- Helper (generalized over the running map and counter): as long as every
value in the map is below the counter and the counter cannot wrap within the
remaining requests, every emitted parent index is either the sentinel or below
the record's absolute table position `c + k`. -/
theorem muxSections_parent_lt (reqs : List SecReq)
    (m : List (List Nat × Nat)) (c : Nat) (hm : ∀ p ∈ m, p.2 < c)
    (hc : c + reqs.length ≤ SENTINEL + 1) :
    ∀ k, k < (muxSections reqs m c).length →
      ((muxSections reqs m c).getD k dMux).parentIndex = SENTINEL ∨
        ((muxSections reqs m c).getD k dMux).parentIndex < c + k := by
  induction reqs generalizing m c with
  | nil => intro k hk; simp [muxSections] at hk
  | cons s tl ih =>
    have hcmod : c % (SENTINEL + 1) = c := by
      apply Nat.mod_eq_of_lt
      simp only [List.length_cons] at hc
      omega
    intro k hk
    cases k with
    | zero =>
      by_cases hp : s.parent.isEmpty
      · left
        simp [muxSections, hp]
      · cases hl : lookupIdx m s.parent with
        | none =>
          left
          simp [muxSections, hp, hl]
        | some v =>
          right
          rcases lookupIdx_mem m s.parent v hl with ⟨p, hpm, hpv⟩
          have hv : v < c := hpv ▸ hm p hpm
          simp only [muxSections, hp, Bool.false_eq_true, if_false, hl,
            List.getD_cons_zero]
          omega
    | succ k' =>
      have hm' : ∀ p ∈ ((s.name, c % (SENTINEL + 1)) :: m), p.2 < c + 1 := by
        intro p hp
        rcases List.mem_cons.mp hp with rfl | hpm
        · simp only [hcmod]
          exact Nat.lt_succ_self c
        · exact Nat.lt_succ_of_lt (hm p hpm)
      have hc' : (c + 1) + tl.length ≤ SENTINEL + 1 := by
        simp only [List.length_cons] at hc
        omega
      have hk' : k' < (muxSections tl ((s.name, c % (SENTINEL + 1)) :: m)
          (c + 1)).length := by
        rw [muxSections_length]
        rw [muxSections_length] at hk
        simpa using Nat.lt_of_succ_lt_succ hk
      rcases ih ((s.name, c % (SENTINEL + 1)) :: m) (c + 1) hm' hc' k' hk'
        with hs | hs
      · left
        simpa [muxSections] using hs
      · right
        have : c + 1 + k' = c + (k' + 1) := by omega
        rw [← this]
        simpa [muxSections] using hs

/-- C7: the mux driver's section table has one record per `--section` request;
a request whose parent name was not the name of any earlier request is stored
with the no-parent sentinel `0xFFFFFFFF` (it never fails); and every stored
non-sentinel parent index refers to a strictly earlier table position. The
bound on the request count keeps the `uint32_t` section counter from
wrapping. -/
theorem C7_parent_resolution (reqs : List SecReq)
    (hlen : reqs.length ≤ SENTINEL + 1) :
    (muxSectionTable reqs).length = reqs.length ∧
    (∀ k, k < reqs.length →
      (∀ j, j < k → (reqs.getD j dReq).name ≠ (reqs.getD k dReq).parent) →
      ((muxSectionTable reqs).getD k dMux).parentIndex = SENTINEL) ∧
    (∀ k, k < (muxSectionTable reqs).length →
      ((muxSectionTable reqs).getD k dMux).parentIndex ≠ SENTINEL →
      ((muxSectionTable reqs).getD k dMux).parentIndex < k) := by
  refine ⟨muxSections_length reqs [] 0, ?_, ?_⟩
  · intro k hk hearly
    exact muxSections_unknown_parent reqs [] 0 k hk
      (fun p hp => absurd hp (List.not_mem_nil p)) hearly
  · intro k hk hne
    rcases muxSections_parent_lt reqs [] 0
        (fun p hp => absurd hp (List.not_mem_nil p)) (by simpa using hlen) k hk
      with hs | hs
    · exact absurd hs hne
    · simpa using hs

/-- C7 witness: the theorem applied to three requests — "V"(parent none),
"C"(parent "V", an earlier name), "X"(parent "Q", never defined): the table
has three records, "X" degrades to the sentinel, and "C"'s parent index 0 is
strictly below its own position 1. -/
theorem C7_parent_resolution_witness :
    ((muxSectionTable [⟨[86], [], 1⟩, ⟨[67], [86], 1⟩, ⟨[88], [81], 2⟩]).getD
        2 dMux).parentIndex = SENTINEL ∧
      ((muxSectionTable
          [⟨[86], [], 1⟩, ⟨[67], [86], 1⟩, ⟨[88], [81], 2⟩]).getD 1
        dMux).parentIndex < 1 := by
  have h := C7_parent_resolution
    [⟨[86], [], 1⟩, ⟨[67], [86], 1⟩, ⟨[88], [81], 2⟩] (by decide)
  refine ⟨h.2.1 2 (by decide) (by decide), h.2.2 1 ?_ (by decide)⟩
  rw [h.1]
  decide
